import Mathlib

/-!
Shallow embedding of the `agentpy` repository (experiment orchestrator in
`src/agentpy/experiment.py`, plus the Model / Registry / Recorder surface that
is exercised by `src/tests/test_model.py`) used to settle the claims of the
natural-language specification.
-/

namespace Agentpy

/-! ### Parameter values

A parameter value is a flat scalar (int or string) or — to model the failure
mode of the documentation pass — an unhashable container such as a Python
`dict`.  `hashable` distinguishes the two. -/

inductive PVal where
  | int (n : Int)
  | str (s : String)
  | dict (entries : List (String × Int))
deriving DecidableEq

/-- Python's `hash(...)` succeeds on scalars and fails on a `dict`. -/
def hashable : PVal → Bool
  | .int _ => true
  | .str _ => true
  | .dict _ => false

/-- One parameter set: a flat name→value mapping (`dict` insertion order kept). -/
abbrev Params := List (String × PVal)

/-- Error taxonomy of the embedded code.  `typeErr` stands for a plain Python
`TypeError` (e.g. raised by pandas when hashing an unhashable value);
the remaining constructors are the errors named by the specification. -/
inductive Err where
  | typeErr
  | configurationError
  | runtimeLimit
  | attributeRecordError
  | notFound
deriving DecidableEq

/-! ### Scenario input

`Experiment.__init__` runs `self.scenarios = make_list(scenarios,
keep_none=True)`.  `make_list` lives in `agentpy/tools.py`, which is not under
`src/`; the comment in `experiment.py` documents that
`make_list(None, keep_none=True)` returns `[None]`, and a list argument is
returned unchanged. -/

/-- Modelled from the spec: `make_list(scenarios, keep_none=True)` from
`agentpy.tools` (file not under `src/`).  A missing scenario input defaults to
one implicit no-scenario placeholder (`[None]`); an ordered list of names is
kept as is (a single name is the singleton list case). -/
def scenarioList (scenarios : Option (List String)) : List (Option String) :=
  match scenarios with
  | none => [none]
  | some l => l.map some

/-! ### Run expansion (`Experiment.__init__` lines 59-61, `Experiment.run`
lines 237-245) -/

/-- `self.parameters_per_run = self.parameters * self.iterations`
(Python list repetition). -/
def parametersPerRun (parameters : List Params) (iterations : Nat) : List Params :=
  (List.replicate iterations parameters).flatten

/-- One run specification: the parameter set handed to the model, the
`run_id` keyword it receives, and its scenario tag. -/
structure RunSpec where
  params : Params
  runId : Nat
  scenario : Option String
deriving DecidableEq

/-- The doubly nested loop
`for i, parameters in enumerate(self.parameters_per_run): for scenario in
self.scenarios: self.model(parameters, run_id=i, scenario=scenario)` —
`i` is the position in `parameters_per_run`, starting from `start`. -/
def seqRunSpecsAux (scs : List (Option String)) : Nat → List Params → List RunSpec
  | _, [] => []
  | i, p :: rest =>
      scs.map (fun sc => ⟨p, i, sc⟩) ++ seqRunSpecsAux scs (i + 1) rest

/-- The ordered list of model executions performed by sequential
`Experiment.run` (one element per `model(...).run()` call, i.e. per bundle
appended to the combined output). -/
def seqRunSpecs (parameters : List Params) (iterations : Nat)
    (scenarios : Option (List String)) : List RunSpec :=
  seqRunSpecsAux (scenarioList scenarios) 0 (parametersPerRun parameters iterations)

/-- Pooled mode dispatches `sim_ids = list(range(self.number_of_runs *
len(self.scenarios)))` where `number_of_runs = len(self.parameters_per_run)`. -/
def poolSimIds (parameters : List Params) (iterations : Nat)
    (scenarios : Option (List String)) : List Nat :=
  List.range ((parametersPerRun parameters iterations).length *
    (scenarioList scenarios).length)

/-- `Experiment._single_sim` (lines 184-195): the work item a pooled worker
builds for `sim_id`.  `sc_id = sim_id % len(self.scenarios)`,
`run_id = (sim_id - sc_id) // len(self.scenarios)`, and the parameter set is
looked up as `self.parameters[run_id]` (note: `self.parameters`, not
`self.parameters_per_run`).  A failed list lookup (Python `IndexError`) is
`none`. -/
def singleSim (parameters : List Params) (scenarios : Option (List String))
    (simId : Nat) : Option RunSpec :=
  let scs := scenarioList scenarios
  let scId := simId % scs.length
  let runId := (simId - scId) / scs.length
  match parameters.get? runId, scs.get? scId with
  | some p, some sc => some ⟨p, runId, sc⟩
  | _, _ => none

/-! ### Documentation pass (`Experiment._parameters_to_output`, lines 63-82)

`pd.DataFrame(self.parameters)` builds a table whose columns are the union of
the parameter names in order of first appearance; a row misses a column →
`NaN` (modelled as `none`).  For each column the code evaluates
`len(s.unique()) == 1`; pandas `unique` hashes every value and raises
`TypeError` on an unhashable one.  Columns with a single unique value move to
the `fixed` dict (taking `df[col][0]`, the first row's value); the rest stay
in the varied table. -/

/-- Column names in order of first appearance (the pandas DataFrame column
union). -/
def firstKeys : List String → List String
  | [] => []
  | k :: rest => k :: (firstKeys rest).filter (fun k0 => k0 ≠ k)

def columnsOf (ps : List Params) : List String :=
  firstKeys ((ps.map (fun p => p.map Prod.fst)).flatten)

/-- The column `df[c]`: one entry per parameter set, `none` for a missing key
(pandas `NaN`). -/
def colValues (ps : List Params) (c : String) : List (Option PVal) :=
  ps.map (fun p => p.lookup c)

/-- First-occurrence deduplication, the order `pandas.unique` reports. -/
def dedupFirst : List (Option PVal) → List (Option PVal)
  | [] => []
  | v :: rest => v :: (dedupFirst rest).filter (fun v0 => v0 ≠ v)

/-- `s.unique()`: hashes every value (a Python `TypeError` on an unhashable
one, `NaN` hashes fine) and returns the distinct values. -/
def colUnique (vals : List (Option PVal)) : Except Err (List (Option PVal)) :=
  if vals.all (fun v => (v.map hashable).getD true) then .ok (dedupFirst vals)
  else .error .typeErr

/-- The column loop of `_parameters_to_output`: splits the columns into the
`fixed_pars` dict (single unique value; the recorded value is `df[col][0]`)
and the remaining varied columns, propagating the first pandas error. -/
def classifyCols (ps : List Params) :
    List String →
    Except Err (List (String × Option PVal) × List (String × List (Option PVal)))
  | [] => .ok ([], [])
  | c :: rest =>
      match colUnique (colValues ps c) with
      | .error e => .error e
      | .ok u =>
          match classifyCols ps rest with
          | .error e => .error e
          | .ok (f, v) =>
              if u.length == 1 then .ok ((c, (colValues ps c).getD 0 none) :: f, v)
              else .ok (f, (c, colValues ps c) :: v)

/-- The three result shapes of `self.output['parameters']`. -/
inductive ParamsOut where
  | fixedOnly (fixed : List (String × Option PVal))
  | variedOnly (varied : List (String × List (Option PVal)))
  | both (fixed : List (String × Option PVal))
      (varied : List (String × List (Option PVal)))
deriving DecidableEq

/-- `Experiment._parameters_to_output`: classify the columns, then
`if fixed_pars and df.empty → fixed dict; elif not fixed_pars and not
df.empty → the DataFrame; else → DataDict {fixed, varied}`.
(`df.empty` after the loop ⟺ no varied column remains.) -/
def parametersToOutput (ps : List Params) : Except Err ParamsOut :=
  match classifyCols ps (columnsOf ps) with
  | .error e => .error e
  | .ok (fixed, varied) =>
      if fixed ≠ [] ∧ varied = [] then .ok (.fixedOnly fixed)
      else if fixed = [] ∧ varied ≠ [] then .ok (.variedOnly varied)
      else .ok (.both fixed varied)

/-- Constructor tag of the parameters report: 0 = flat fixed mapping,
1 = single combined table, 2 = two-part fixed/varied structure. -/
def shapeTag : ParamsOut → Nat
  | .fixedOnly _ => 0
  | .variedOnly _ => 1
  | .both _ _ => 2

def outShape (e : Except Err ParamsOut) : Option Nat := e.toOption.map shapeTag

/-- The error constructor an evaluation raised, if any. -/
def errOf (e : Except Err ParamsOut) : Option Err :=
  match e with
  | .ok _ => none
  | .error er => some er

/-- A column is "fixed" exactly when the code's test
`len(s.unique()) == 1` holds. -/
def isFixedCol (ps : List Params) (c : String) : Bool :=
  (dedupFirst (colValues ps c)).length == 1

/-- The specification's notion of a fixed parameter: its value is identical
across every run specification (missing entries count as `NaN`). -/
def IdenticalCol (ps : List Params) (c : String) : Prop :=
  ∀ v1 ∈ colValues ps c, ∀ v2 ∈ colValues ps c, v1 = v2

/-- Every parameter value of every parameter set is hashable. -/
def allHashable (ps : List Params) : Bool :=
  ps.all (fun p => p.all (fun kv => hashable kv.2))

/-! ### Output combiner (`Experiment._add_single_output_to_combined` lines
141-170, `Experiment._combine_dataframes` lines 172-182)

A run bundle (`DataDict`) is modelled with its sections typed out:
`parameters` and `log` (skipped by the combiner), the optional `variables`
sub-dict of per-object-type DataFrames (absent when dynamic-variable
recording was disabled), and the remaining tabular fields (e.g. `measures`).
A DataFrame is a list of rows; each row keeps the run id of the run that
produced it (pandas index), the run-internal secondary index, and a payload.
The iteration order of `single_output.items()` only affects the insertion
order of the keys of the combined dict, never the per-key content the claims
are about. -/

structure Row where
  runId : Nat
  sub : Nat
  val : Int
deriving DecidableEq

abbrev Df := List Row

structure RunOutput where
  parametersSec : List (String × PVal)
  logSec : List (String × PVal)
  varsSec : Option (List (String × Df))
  fields : List (String × Df)
deriving DecidableEq

/-- The mutable `combined_output` dict: for every key a list of the DataFrames
appended so far (in arrival order); `variables` holds one such list per
object type. -/
structure CombAcc where
  varsAcc : List (String × List Df)
  fieldsAcc : List (String × List Df)
deriving DecidableEq

/-- `if key not in combined_output: combined_output[key] = [];
combined_output[key].append(value)` on an insertion-ordered dict. -/
def appendAssoc (k : String) (df : Df) :
    List (String × List Df) → List (String × List Df)
  | [] => [(k, [df])]
  | (k0, l) :: rest =>
      if k0 = k then (k0, l ++ [df]) :: rest else (k0, l) :: appendAssoc k df rest

/-- First-match lookup in an insertion-ordered dict (missing key → `[]`). -/
def getAssoc (k : String) : List (String × List Df) → List Df
  | [] => []
  | (k0, l) :: rest => if k0 = k then l else getAssoc k rest

/-- `Experiment._add_single_output_to_combined`: skip `parameters` and `log`;
skip `variables` when `self.record` is false; append the `variables`
sub-frames per object type; append every other value to its key's list. -/
def addSingleOutputToCombined (record : Bool) (out : RunOutput)
    (acc : CombAcc) : CombAcc :=
  let acc1 :=
    if record then
      match out.varsSec with
      | some vs =>
          { acc with varsAcc := vs.foldl (fun a p => appendAssoc p.1 p.2 a) acc.varsAcc }
      | none => acc
    else acc
  { acc1 with fieldsAcc := out.fields.foldl (fun a p => appendAssoc p.1 p.2 a) acc1.fieldsAcc }

/-- The combined experiment output after `_combine_dataframes`:
`pd.concat` of each key's list of DataFrames (concatenation of the rows in
arrival order), nested per object type for `variables`. -/
structure ExpOutput where
  varsOut : List (String × Df)
  fields : List (String × Df)
deriving DecidableEq

/-- The aggregation loop of `Experiment.run` followed by
`_combine_dataframes`: fold the bundles in arrival order into
`combined_output`, then concatenate per key. -/
def combineAll (record : Bool) (outs : List RunOutput) : ExpOutput :=
  let acc := outs.foldl (fun a o => addSingleOutputToCombined record o a) ⟨[], []⟩
  ⟨acc.varsAcc.map (fun p => (p.1, p.2.flatten)),
   acc.fieldsAcc.map (fun p => (p.1, p.2.flatten))⟩

/-- First-match lookup in the final output (missing key → empty frame). -/
def getDf (k : String) : List (String × Df) → Df
  | [] => []
  | (k0, d) :: rest => if k0 = k then d else getDf k rest

/-- The rows of the combined table `key`, keyed by run id `r`. -/
def rowsForField (o : ExpOutput) (k : String) (r : Nat) : Df :=
  (getDf k o.fields).filter (fun row => row.runId == r)

/-- The rows of the combined `variables` table for object type `k`, keyed by
run id `r`. -/
def rowsForVar (o : ExpOutput) (k : String) (r : Nat) : Df :=
  (getDf k o.varsOut).filter (fun row => row.runId == r)

/-- All run ids a bundle's rows carry (tabular fields and variables alike). -/
def bundleIds (out : RunOutput) : List Nat :=
  ((out.fields.map (fun p => p.2.map Row.runId)).flatten) ++
    (match out.varsSec with
     | some vs => (vs.map (fun p => p.2.map Row.runId)).flatten
     | none => [])

/-- Two bundles stem from distinct runs: no run id occurs in both
(the spec's deterministic 1:1 mapping from run id to work item). -/
def DisjointIds (o1 o2 : RunOutput) : Prop :=
  ∀ r, r ∈ bundleIds o1 → r ∉ bundleIds o2

/-- The DataFrames a single bundle contributes to the combined table `k`. -/
def fieldDfs (out : RunOutput) (k : String) : List Df :=
  (out.fields.filter (fun p => p.1 == k)).map Prod.snd

/-- The DataFrames a single bundle contributes to the combined `variables`
table of object type `k` (none when recording is off or the bundle omits the
`variables` section). -/
def varDfs (record : Bool) (out : RunOutput) (k : String) : List Df :=
  if record then
    match out.varsSec with
    | some vs => (vs.filter (fun p => p.1 == k)).map Prod.snd
    | none => []
  else []

/-- A concrete bundle of run 0: one `measures` row and one per-agent
variables row. -/
def bundleA : RunOutput :=
  ⟨[], [], some [("agents", [⟨0, 0, 1⟩])], [("measures", [⟨0, 0, 5⟩])]⟩

/-- A concrete bundle of run 1. -/
def bundleB : RunOutput :=
  ⟨[], [], some [("agents", [⟨1, 0, 2⟩])], [("measures", [⟨1, 0, 6⟩])]⟩

/-! ### Model state machine

`agentpy/model.py` is not under `src/`; the step loop below is modelled from
the spec (§4.2) and pinned down by `src/tests/test_model.py::test_run`:
the loop runs the `step()` hook and increments `t` while the stop flag is
unset and `t` is below the configured step limit, raising an `AgentpyError`
(RuntimeLimitError) as soon as the loop would pass `t_max`; a fresh model has
`t_max` equal to the hard ceiling 1,000,000.  The user hook reads `t` and the
user state and may request `stop()`; the engine itself increments `t`. -/

def hardCeiling : Nat := 1000000

structure RunState (σ : Type) where
  t : Nat
  tMax : Nat
  stopped : Bool
  user : σ

/-- Outcome of `Model.run`: normal return, or the RuntimeLimitError raise —
either way the model instance (with its final `t`) survives, as the tests
observe `model.t` after the raise. -/
inductive RunResult (σ : Type) where
  | ok (s : RunState σ)
  | limitError (s : RunState σ)

/-- Modelled from the spec: effective step-limit resolution order of
`Model.run` — explicit `steps` argument, else `parameters['steps']`, else no
configured limit (the hard ceiling `t_max` alone bounds the run). -/
def resolveSteps (stepsArg paramSteps : Option Nat) : Option Nat :=
  match stepsArg with
  | some n => some n
  | none => paramSteps

/-- `t` is below the configured step limit (no configured limit → always). -/
def underLimit (limit : Option Nat) (t : Nat) : Bool :=
  match limit with
  | some n => t < n
  | none => true

/-- Modelled from the spec: the step loop of `Model.run`.  While the stop
flag is unset and `t` is below the configured limit: if the next step would
pass `t_max`, raise (RuntimeLimitError) leaving the state untouched;
otherwise run the user `step()` hook (which may request `stop()`) and
increment `t`, then re-check at the step boundary. -/
def runLoop {σ : Type} (hook : Nat → σ → σ × Bool) (limit : Option Nat)
    (s : RunState σ) : RunResult σ :=
  if underLimit limit s.t && !s.stopped then
    if h : s.tMax ≤ s.t then .limitError s
    else
      let (u, stopReq) := hook s.t s.user
      runLoop hook limit { s with t := s.t + 1, user := u, stopped := stopReq }
  else .ok s
termination_by s.tMax - s.t
decreasing_by
  simp_wf
  omega

/-- Modelled from the spec: `Model.run(steps=...)` on a model whose
parameters may carry a `steps` entry. -/
def runModel {σ : Type} (hook : Nat → σ → σ × Bool)
    (stepsArg paramSteps : Option Nat) (s : RunState σ) : RunResult σ :=
  runLoop hook (resolveSteps stepsArg paramSteps) s

def resState {σ : Type} : RunResult σ → RunState σ
  | .ok s => s
  | .limitError s => s

def resT {σ : Type} (r : RunResult σ) : Nat := (resState r).t

def isLimitError {σ : Type} : RunResult σ → Bool
  | .ok _ => false
  | .limitError _ => true

/-- Modelled from the spec: a freshly constructed `Model` — `t = 0`, stop
flag unset, `t_max` at the hard ceiling. -/
def freshRun {σ : Type} (u : σ) : RunState σ :=
  ⟨0, hardCeiling, false, u⟩

/-! ### Recorder

`Model.record` is not under `src/` either.  Modelled from the spec (§4.3):
for each requested name the current value of that dynamic variable is read
and appended to the variable's series, failing with AttributeRecordError when
the name does not resolve.  The repository's own tests
(`test_record` / `test_record_all`) additionally fix that one `record(...)`
call leaves a third bookkeeping series in the log (the time key `t`) next to
the recorded variables, so the log key count is `#names + 1`, not `#names`. -/

structure RModel where
  t : Nat
  vars : List (String × Int)
  log : List (String × List Int)
deriving DecidableEq

def RModel.fresh : RModel := ⟨0, [], []⟩

/-- `model.<name> = value` on a dynamic variable (insertion order kept). -/
def setVar (k : String) (v : Int) (m : RModel) : RModel :=
  { m with vars :=
      if (m.vars.lookup k).isSome
      then m.vars.map (fun kv => if kv.1 = k then (k, v) else kv)
      else m.vars ++ [(k, v)] }

/-- `model.var_keys`: the names of the dynamic variables set so far. -/
def varKeys (m : RModel) : List String := m.vars.map Prod.fst

/-- Append one value to the series of `k` in the log (creating the series at
its first recording — no back-fill). -/
def appendLog (k : String) (v : Int) :
    List (String × List Int) → List (String × List Int)
  | [] => [(k, [v])]
  | (k0, l) :: rest =>
      if k0 = k then (k0, l ++ [v]) :: rest else (k0, l) :: appendLog k v rest

/-- Modelled from the spec: `Model.record(names)` — appends the current time
to the `t` series, then for each requested name appends the variable's
current value to its series (AttributeRecordError when the name does not
resolve). -/
def record (names : List String) (m : RModel) : Except Err RModel := do
  let log1 := appendLog "t" (Int.ofNat m.t) m.log
  let log2 ← names.foldlM
    (fun lg n =>
      match m.vars.lookup n with
      | some v => Except.ok (appendLog n v lg)
      | none => Except.error Err.attributeRecordError) log1
  Except.ok { m with log := log2 }

def logOf (e : Except Err RModel) : List (String × List Int) :=
  match e with
  | .ok m => m.log
  | .error _ => []

/-! ### Object registry

`Model.add_agents` / `add_env` / deletion are not under `src/`.  Modelled
from the spec (§4.1, §3): ids are issued by a monotonic per-model counter and
never reused (the tests fix that the first issued id is 1); an environment
holds a membership set of agent ids; deleting an object removes it from the
registry and from every environment's membership set, and deleting an
unregistered object fails with NotFoundError. -/

structure Env where
  id : Nat
  members : List Nat
deriving DecidableEq

structure RegModel where
  nextId : Nat
  agents : List Nat
  envs : List Env
deriving DecidableEq

def RegModel.fresh : RegModel := ⟨1, [], []⟩

/-- Modelled from the spec: `add_agents(n)` — create `n` agents whose ids
continue the model's monotonic counter. -/
def addAgents (n : Nat) (m : RegModel) : RegModel :=
  { m with agents := m.agents ++ List.range' m.nextId n, nextId := m.nextId + n }

/-- Modelled from the spec: `add_env()` — a singleton environment object,
with an id from the same counter. -/
def addEnv (m : RegModel) : RegModel :=
  { m with envs := m.envs ++ [⟨m.nextId, []⟩], nextId := m.nextId + 1 }

/-- Modelled from the spec: `env.add_agents(ids)` — add the given agent ids
to that environment's membership set. -/
def envAddAgents (eid : Nat) (ids : List Nat) (m : RegModel) : RegModel :=
  { m with envs := m.envs.map (fun e =>
      if e.id = eid then { e with members := e.members ++ ids } else e) }

/-- Modelled from the spec: deleting the agent with id `a` — removed from the
registry and from every environment's membership set (set removal);
NotFoundError when `a` is not registered. -/
def deleteAgent (a : Nat) (m : RegModel) : Except Err RegModel :=
  if a ∈ m.agents then
    Except.ok { m with
      agents := m.agents.filter (fun x => x ≠ a),
      envs := m.envs.map (fun e => { e with members := e.members.filter (fun x => x ≠ a) }) }
  else Except.error Err.notFound

def agentsOf (e : Except Err RegModel) : List Nat :=
  match e with
  | .ok m => m.agents
  | .error _ => []

def envsOf (e : Except Err RegModel) : List Env :=
  match e with
  | .ok m => m.envs
  | .error _ => []

/-! ## Theorems -/

/-- Claim C5 (evaluation at the failing input): a parameter list holding an
unhashable value makes the documentation pass fail with a plain Python
`TypeError` (raised inside `s.unique()`), not with the ConfigurationError the
specification promises — the `TODO` comment at `experiment.py:70` records the
missing error handling. -/
theorem unhashable_raises_type_error :
    errOf (parametersToOutput [[("a", PVal.dict [("k", 1)])]]) = some Err.typeErr ∧
    Err.typeErr ≠ Err.configurationError := by
  decide

/-- Claim C3 (evaluation at the failing input): with one parameter set and
two iterations, sequential mode executes run id 1 with
`parameters_per_run[1]`, while the pooled worker for the same run id
(`sim_id = 1`, one scenario) indexes `self.parameters[1]` and hits an
IndexError — pooled execution does not instantiate the sequential work
items. -/
theorem pool_param_lookup_fails :
    (parametersPerRun [[]] 2).get? 1 = some [] ∧
    (seqRunSpecs [[]] 2 none).map RunSpec.runId = [0, 1] ∧
    singleSim [[]] none 1 = none := by
  decide

/-- Claim C8, counterexample: after `v1 = 1; v2 = 2;
record(['v1','v2'])` the log does not have exactly two keys — the repository
test `test_record` asserts three (the recorder keeps a time series besides
the recorded variables). -/
theorem record_log_not_two_keys :
    ¬ (logOf (record ["v1", "v2"]
        (setVar "v2" 2 (setVar "v1" 1 RModel.fresh)))).length = 2 := by
  decide

/-- Claim C8, amended: after `v1 = 1; v2 = 2`, `record(['v1','v2'])` leaves a
log with exactly three keys — the two variables, each a one-element series
(`[1]` / `[2]`), plus the recorder's time key — and `record` over the model's
known variable keys yields the identical log without pre-declared names. -/
theorem record_log_three_keys :
    (logOf (record ["v1", "v2"]
        (setVar "v2" 2 (setVar "v1" 1 RModel.fresh)))).length = 3 ∧
    (logOf (record ["v1", "v2"]
        (setVar "v2" 2 (setVar "v1" 1 RModel.fresh)))).lookup "v1" = some [1] ∧
    (logOf (record ["v1", "v2"]
        (setVar "v2" 2 (setVar "v1" 1 RModel.fresh)))).lookup "v2" = some [2] ∧
    logOf (record (varKeys (setVar "v2" 2 (setVar "v1" 1 RModel.fresh)))
        (setVar "v2" 2 (setVar "v1" 1 RModel.fresh)))
      = logOf (record ["v1", "v2"]
        (setVar "v2" 2 (setVar "v1" 1 RModel.fresh))) := by
  decide

/-- Claim C9: with `t_max` set to 0 before `run()`, no step executes and the
model state — in particular `t` — is exactly the pre-run state, whether the
run returns or raises. -/
theorem tmax_zero_skips_run {σ : Type} (hook : Nat → σ → σ × Bool)
    (limit : Option Nat) (s : RunState σ) (h : s.tMax = 0) :
    resState (runLoop hook limit s) = s := by
  rw [runLoop]
  by_cases hc : (underLimit limit s.t && !s.stopped) = true
  · simp [hc, h, resState]
  · simp [hc, resState]

/-- Witness for `tmax_zero_skips_run` at a concrete model (`t = 5`,
`t_max = 0`, a steps parameter of 1). -/
theorem tmax_zero_skips_run_witness :
    resState (runLoop (fun (_ : Nat) (u : Unit) => (u, false)) (some 1)
        ⟨5, 0, false, ()⟩) = ⟨5, 0, false, ()⟩ :=
  tmax_zero_skips_run (fun _ u => (u, false)) (some 1) ⟨5, 0, false, ()⟩ rfl

/-- `parameters_per_run` repeats the parameter list `iterations` times. -/
theorem length_parametersPerRun (ps : List Params) (it : Nat) :
    (parametersPerRun ps it).length = it * ps.length := by
  induction it with
  | zero => simp [parametersPerRun]
  | succ n ih =>
      simp only [parametersPerRun, List.replicate_succ, List.flatten_cons,
        List.length_append] at ih ⊢
      rw [ih]
      ring

/-- Each position of `parameters_per_run` contributes one run per scenario. -/
theorem length_seqRunSpecsAux (scs : List (Option String)) (l : List Params) :
    ∀ i, (seqRunSpecsAux scs i l).length = l.length * scs.length := by
  induction l with
  | nil => intro i; simp [seqRunSpecsAux]
  | cons p rest ih =>
      intro i
      simp only [seqRunSpecsAux, List.length_append, List.length_map,
        List.length_cons, ih]
      ring

/-- Claim C1, counterexample: an experiment configured with one parameter
set, one iteration and an explicitly empty scenario list executes zero runs,
not `len(parameters) × iterations × max(1, len(scenarios)) = 1`
(`make_list` only inserts the `[None]` placeholder for a missing input, and
the scenario loop body never executes over `[]`). -/
theorem empty_scenario_list_zero_runs :
    (seqRunSpecs [[]] 1 (some [])).length ≠
      [([] : Params)].length * 1 * max 1 ([] : List String).length := by
  decide

/-- Claim C1, amended: the total number of runs executed (and bundles
produced) equals `len(parameters) × iterations × len(scenarios)` after the
scenario input has been normalised (`None` defaults to the one-element
placeholder list); pooled mode dispatches the same number of work items; for
a missing or nonempty scenario input the normalised length agrees with
`max(1, len(scenarios))`, so e.g. 2 parameter sets × 3 iterations × 1
scenario execute exactly 6 runs. -/
theorem total_run_count (ps : List Params) (it : Nat)
    (scs : Option (List String)) :
    (seqRunSpecs ps it scs).length =
      ps.length * it * (scenarioList scs).length ∧
    (poolSimIds ps it scs).length =
      ps.length * it * (scenarioList scs).length ∧
    (scenarioList none).length = 1 ∧
    (∀ l : List String, l ≠ [] →
      (scenarioList (some l)).length = max 1 l.length) := by
  refine ⟨?_, ?_, rfl, ?_⟩
  · rw [seqRunSpecs, length_seqRunSpecsAux, length_parametersPerRun]
    ring
  · rw [poolSimIds, List.length_range, length_parametersPerRun]
    ring
  · intro l hl
    rcases l with _ | ⟨a, l⟩
    · exact absurd rfl hl
    · simp [scenarioList, Nat.max_eq_right, Nat.succ_le_succ (Nat.zero_le _)]

/-- Witness for `total_run_count`: 2 parameter sets × 3 iterations × 1
scenario yield exactly 6 sequential runs and 6 pooled work items. -/
theorem total_run_count_witness :
    (seqRunSpecs [[], [("a", PVal.int 1)]] 3 (some ["s1"])).length = 6 ∧
    (poolSimIds [[], [("a", PVal.int 1)]] 3 (some ["s1"])).length = 6 ∧
    (scenarioList (some ["s1"])).length = max 1 1 := by
  have h := total_run_count [[], [("a", PVal.int 1)]] 3 (some ["s1"])
  exact ⟨h.1.trans (by decide), h.2.1.trans (by decide),
    h.2.2.2 ["s1"] (by simp)⟩

/-- The run ids handed out by the sequential loop: position `i` of
`parameters_per_run` yields one spec per scenario, all carrying run id `i`. -/
theorem map_runId_seqRunSpecsAux (scs : List (Option String))
    (l : List Params) :
    ∀ i, (seqRunSpecsAux scs i l).map RunSpec.runId
      = (List.range' i l.length).flatMap (fun j => List.replicate scs.length j) := by
  induction l with
  | nil => intro i; rfl
  | cons p rest ih =>
      intro i
      simp only [seqRunSpecsAux, List.map_append, List.map_map,
        List.range'_succ, List.flatMap_cons, ih]
      congr 1
      simp [Function.comp_def]

/-- Claim C2, counterexample: with one parameter set, one iteration and two
scenarios the expansion has two distinct run specifications, but their run
ids are `[0, 0]` — not their indices in the expansion, and not distinct. -/
theorem scenario_run_ids_collide :
    (seqRunSpecs [[]] 1 (some ["a", "b"])).map RunSpec.runId = [0, 0] ∧
    (seqRunSpecs [[]] 1 (some ["a", "b"])).map RunSpec.runId ≠
      List.range (seqRunSpecs [[]] 1 (some ["a", "b"])).length ∧
    (seqRunSpecs [[]] 1 (some ["a", "b"])).get? 0 ≠
      (seqRunSpecs [[]] 1 (some ["a", "b"])).get? 1 := by
  decide

/-- Claim C2, amended: each run specification carries the run id equal to its
position in the `parameters × iterations` expansion, shared by all scenarios
of that position; when there is exactly one scenario the run id equals the
spec's index in the full expansion, so distinct specifications never share a
run id. -/
theorem run_id_assignment (ps : List Params) (it : Nat)
    (scs : Option (List String)) :
    (seqRunSpecs ps it scs).map RunSpec.runId
      = (List.range (parametersPerRun ps it).length).flatMap
          (fun j => List.replicate (scenarioList scs).length j) ∧
    ((scenarioList scs).length = 1 →
      (seqRunSpecs ps it scs).map RunSpec.runId
        = List.range (seqRunSpecs ps it scs).length) := by
  constructor
  · rw [seqRunSpecs, map_runId_seqRunSpecsAux, List.range_eq_range']
  · intro h1
    rw [seqRunSpecs, map_runId_seqRunSpecsAux, length_seqRunSpecsAux, h1,
      List.range_eq_range', Nat.mul_one]
    simp [List.replicate]

/-- Witness for `run_id_assignment`: one parameter set, two iterations, no
scenario input — run ids are `[0, 1]`, the indices in the expansion. -/
theorem run_id_assignment_witness :
    (seqRunSpecs [[]] 2 none).map RunSpec.runId
      = List.range (seqRunSpecs [[]] 2 none).length :=
  (run_id_assignment [[]] 2 none).2 rfl

/-- Helper for claim C7: with no configured step limit and a hook that never
requests `stop()`, the loop only ends by raising at `t_max`, with `t` driven
exactly to `t_max`. -/
theorem runLoop_no_limit_hits_tmax {σ : Type} (hook : Nat → σ → σ × Bool)
    (hns : ∀ t u, (hook t u).2 = false) :
    ∀ (n : Nat) (s : RunState σ), s.stopped = false → s.t ≤ s.tMax →
      s.tMax - s.t = n →
      isLimitError (runLoop hook none s) = true ∧
      resT (runLoop hook none s) = s.tMax := by
  intro n
  induction n with
  | zero =>
      intro s h0 hle hn
      have ht : s.tMax ≤ s.t := by omega
      rw [runLoop]
      simp [underLimit, h0, ht, isLimitError, resT, resState]
      omega
  | succ n ih =>
      intro s h0 hle hn
      have ht : ¬ s.tMax ≤ s.t := by omega
      rw [runLoop]
      simp only [underLimit, h0, Bool.not_false, Bool.and_true, if_true, ht,
        dite_false, dif_neg]
      rcases hh : hook s.t s.user with ⟨u, b⟩
      have hb : b = false := by
        have := hns s.t s.user
        rw [hh] at this
        exact this
      subst hb
      have := ih { s with t := s.t + 1, user := u, stopped := false }
        rfl (by simp; omega) (by simp; omega)
      simpa [hh] using this

/-- Claim C7: a model run with no `steps` argument and no `steps` parameter,
whose step hook never calls `stop()`, is never silently truncated: starting
anywhere at or below the hard ceiling with `t_max` at the hard ceiling,
`run()` raises the runtime-limit error exactly when `t` reaches 1,000,000,
and `t` equals 1,000,000 at that point. -/
theorem run_raises_at_hard_ceiling {σ : Type} (hook : Nat → σ → σ × Bool)
    (hns : ∀ t u, (hook t u).2 = false) (s : RunState σ)
    (h0 : s.stopped = false) (h1 : s.tMax = hardCeiling) (h2 : s.t ≤ hardCeiling) :
    isLimitError (runModel hook none none s) = true ∧
    resT (runModel hook none none s) = 1000000 := by
  have := runLoop_no_limit_hits_tmax hook hns (s.tMax - s.t) s h0 (by omega) rfl
  rw [h1] at this
  exact this

/-- Witness for `run_raises_at_hard_ceiling`: a fresh model (`t = 0`,
`t_max` at the hard ceiling) with a do-nothing step hook. -/
theorem run_raises_at_hard_ceiling_witness :
    isLimitError (runModel (fun (_ : Nat) (u : Unit) => (u, false)) none none
        (freshRun ())) = true ∧
    resT (runModel (fun (_ : Nat) (u : Unit) => (u, false)) none none
        (freshRun ())) = 1000000 :=
  run_raises_at_hard_ceiling (fun _ u => (u, false)) (fun _ _ => rfl)
    (freshRun ()) rfl rfl (Nat.zero_le _)

/-- Claim C10: on a fresh model, `add_agents(3)` issues the ids `[1,2,3]`;
deleting the agent with id 2 leaves the agents `[1,3]` in the registry, and —
whatever environments the model holds — removes id 2 from every environment's
membership set, leaving no dangling references. -/
theorem delete_agent_no_dangling (es : List Env) :
    (addAgents 3 RegModel.fresh).agents = [1, 2, 3] ∧
    agentsOf (deleteAgent 2 { addAgents 3 RegModel.fresh with envs := es }) = [1, 3] ∧
    (envsOf (deleteAgent 2 { addAgents 3 RegModel.fresh with envs := es })).all
      (fun e => !(e.members.contains 2)) = true := by
  refine ⟨rfl, ?_, ?_⟩
  · simp [deleteAgent, addAgents, RegModel.fresh, agentsOf]
    decide
  · simp only [deleteAgent, addAgents, RegModel.fresh, envsOf]
    simp [List.all_eq_true, List.mem_filter]

/-- Membership is unchanged by `unique`'s first-occurrence deduplication. -/
theorem mem_dedupFirst (x : Option PVal) :
    ∀ l : List (Option PVal), x ∈ dedupFirst l ↔ x ∈ l := by
  intro l
  induction l with
  | nil => simp [dedupFirst]
  | cons v rest ih =>
      simp only [dedupFirst, List.mem_cons, List.mem_filter, ih]
      constructor
      · rintro (rfl | ⟨hx, _⟩)
        · exact Or.inl rfl
        · exact Or.inr hx
      · rintro (rfl | hx)
        · exact Or.inl rfl
        · by_cases hxv : x = v
          · exact Or.inl hxv
          · exact Or.inr ⟨hx, by simpa using hxv⟩

/-- `len(s.unique()) == 1` says exactly that the column's values are all
identical. -/
theorem dedupFirst_length_one_iff (l : List (Option PVal)) (hl : l ≠ []) :
    ((dedupFirst l).length = 1 ↔ ∀ x ∈ l, ∀ y ∈ l, x = y) := by
  rcases l with _ | ⟨v, rest⟩
  · exact absurd rfl hl
  · constructor
    · intro h x hx y hy
      have hfil : ((dedupFirst rest).filter (fun v0 => v0 ≠ v)) = [] := by
        simpa [dedupFirst, List.length_eq_zero] using h
      have hvrest : ∀ z ∈ rest, z = v := by
        intro z hz
        have hz' := (mem_dedupFirst z rest).mpr hz
        have := List.filter_eq_nil_iff.mp hfil z hz'
        simpa using this
      rcases List.mem_cons.mp hx with rfl | hx' <;>
        rcases List.mem_cons.mp hy with rfl | hy'
      · rfl
      · exact (hvrest y hy').symm
      · exact hvrest x hx'
      · rw [hvrest x hx', hvrest y hy']
    · intro h
      have hvrest : ∀ z ∈ rest, z = v := fun z hz =>
        h z (List.mem_cons_of_mem _ hz) v (List.mem_cons_self _ _)
      have hfil : ((dedupFirst rest).filter (fun v0 => v0 ≠ v)) = [] := by
        apply List.filter_eq_nil_iff.mpr
        intro z hz
        have := hvrest z ((mem_dedupFirst z rest).mp hz)
        simp [this]
      simp [dedupFirst, hfil]
      intro z hz
      exact hvrest z ((mem_dedupFirst z rest).mp hz)

/-- A successful lookup in an all-hashable parameter set yields a hashable
value. -/
theorem lookup_hashable (c : String) (v : PVal) :
    ∀ p : Params, p.all (fun kv => hashable kv.2) = true →
      p.lookup c = some v → hashable v = true := by
  intro p
  induction p with
  | nil => intro _ h; simp [List.lookup] at h
  | cons kv rest ih =>
      intro hall hlk
      simp only [List.all_cons, Bool.and_eq_true] at hall
      rw [List.lookup] at hlk
      by_cases hc : c == kv.1
      · simp [hc] at hlk
        rw [← hlk]
        exact hall.1
      · simp [hc] at hlk
        exact ih hall.2 hlk

/-- With hashable parameter values, every column survives `s.unique()`. -/
theorem colValues_hashable (ps : List Params) (c : String)
    (hh : allHashable ps = true) :
    (colValues ps c).all (fun v => (v.map hashable).getD true) = true := by
  rw [List.all_eq_true]
  intro v hv
  rw [colValues, List.mem_map] at hv
  obtain ⟨p, hp, rfl⟩ := hv
  have hp' : p.all (fun kv => hashable kv.2) = true := by
    have := List.all_eq_true.mp hh p hp
    simpa using this
  rcases hlk : p.lookup c with _ | w
  · simp
  · have := lookup_hashable c w p hp' hlk
    simp [this]

/-- With hashable parameter values the column loop never raises: it splits
the columns into the fixed ones (with their first-row value) and the varied
ones, keeping column order. -/
theorem classifyCols_ok (ps : List Params) (hh : allHashable ps = true) :
    ∀ cols : List String, classifyCols ps cols =
      Except.ok
        ((cols.filter (fun c => isFixedCol ps c)).map
            (fun c => (c, (colValues ps c).getD 0 none)),
         (cols.filter (fun c => !isFixedCol ps c)).map
            (fun c => (c, colValues ps c))) := by
  intro cols
  induction cols with
  | nil => rfl
  | cons c rest ih =>
      have hok : colUnique (colValues ps c) =
          Except.ok (dedupFirst (colValues ps c)) := by
        rw [colUnique, if_pos (colValues_hashable ps c hh)]
      by_cases hf : isFixedCol ps c = true
      · have hlen : ((dedupFirst (colValues ps c)).length == 1) = true := by
          simpa [isFixedCol] using hf
        rw [classifyCols, hok, ih]
        simp [hlen, List.filter_cons, hf]
      · have hlen : ((dedupFirst (colValues ps c)).length == 1) = false := by
          simpa [isFixedCol] using hf
        rw [classifyCols, hok, ih]
        simp [hlen, List.filter_cons, hf]

/-- A parameter list with at least one column is nonempty. -/
theorem columnsOf_ne_nil_ps (ps : List Params) (hc : columnsOf ps ≠ []) :
    ps ≠ [] := by
  intro h
  subst h
  exact hc rfl

/-- For a nonempty parameter list, the code's fixed-column test agrees with
the specification's notion of a parameter identical across all runs. -/
theorem isFixedCol_iff_identical (ps : List Params) (c : String)
    (hps : ps ≠ []) : isFixedCol ps c = true ↔ IdenticalCol ps c := by
  have hne : colValues ps c ≠ [] := by
    rcases ps with _ | ⟨p, rest⟩
    · exact absurd rfl hps
    · simp [colValues]
  rw [isFixedCol, beq_iff_eq, dedupFirst_length_one_iff _ hne]
  rfl

/-- Claim C6, amended: for every parameter list of hashable values with at
least one parameter name, the parameters report has exactly one of three
shapes — all parameters identical across runs gives the flat fixed mapping;
every parameter varying gives the single combined table; a mix gives the
two-part fixed/varied structure.  (A parameter list with no parameter names
instead lands in the two-part branch with empty parts.) -/
theorem parameters_report_shapes (ps : List Params)
    (hh : allHashable ps = true) (hc : columnsOf ps ≠ []) :
    ((∀ c ∈ columnsOf ps, IdenticalCol ps c) →
        outShape (parametersToOutput ps) = some 0) ∧
    ((∀ c ∈ columnsOf ps, ¬ IdenticalCol ps c) →
        outShape (parametersToOutput ps) = some 1) ∧
    (((∃ c ∈ columnsOf ps, IdenticalCol ps c) ∧
      (∃ c ∈ columnsOf ps, ¬ IdenticalCol ps c)) →
        outShape (parametersToOutput ps) = some 2) := by
  have hps := columnsOf_ne_nil_ps ps hc
  have hiff : ∀ c, (isFixedCol ps c = true ↔ IdenticalCol ps c) :=
    fun c => isFixedCol_iff_identical ps c hps
  have hres := classifyCols_ok ps hh (columnsOf ps)
  refine ⟨?_, ?_, ?_⟩
  · intro hall
    have hfix : (columnsOf ps).filter (fun c => isFixedCol ps c) = columnsOf ps := by
      apply List.filter_eq_self.mpr
      intro c hcmem
      exact (hiff c).mpr (hall c hcmem)
    have hvar : (columnsOf ps).filter (fun c => !isFixedCol ps c) = [] := by
      apply List.filter_eq_nil_iff.mpr
      intro c hcmem
      simp [(hiff c).mpr (hall c hcmem)]
    rw [hfix, hvar] at hres
    rw [outShape, parametersToOutput, hres]
    simp [hc, shapeTag, Except.toOption]
  · intro hnone
    have hfix : (columnsOf ps).filter (fun c => isFixedCol ps c) = [] := by
      apply List.filter_eq_nil_iff.mpr
      intro c hcmem
      simpa [hiff c] using hnone c hcmem
    have hvar : (columnsOf ps).filter (fun c => !isFixedCol ps c) = columnsOf ps := by
      apply List.filter_eq_self.mpr
      intro c hcmem
      have : ¬ isFixedCol ps c = true := fun hft => (hnone c hcmem) ((hiff c).mp hft)
      simpa using this
    rw [hfix, hvar] at hres
    rw [outShape, parametersToOutput, hres]
    simp [hc, shapeTag, Except.toOption]
  · rintro ⟨⟨cf, hcf, hcfI⟩, ⟨cv, hcv, hcvI⟩⟩
    have hfix : (columnsOf ps).filter (fun c => isFixedCol ps c) ≠ [] := by
      intro hnil
      have := List.filter_eq_nil_iff.mp hnil cf hcf
      simp [hiff cf, hcfI] at this
    have hvar : (columnsOf ps).filter (fun c => !isFixedCol ps c) ≠ [] := by
      intro hnil
      have := List.filter_eq_nil_iff.mp hnil cv hcv
      simp [hiff cv] at this
      exact hcvI this
    rw [outShape, parametersToOutput, hres]
    simp [hfix, hvar, shapeTag, Except.toOption]

/-- Claim C6, counterexample: a parameter list holding one empty parameter
set has no parameter names, so every parameter is (vacuously) identical
across all runs and the claim promises the flat fixed mapping — but the
code's final `else` branch produces the two-part structure with empty fixed
and varied parts. -/
theorem empty_params_not_flat_fixed :
    (∀ c ∈ columnsOf [([] : Params)], IdenticalCol [[]] c) ∧
    outShape (parametersToOutput [[]]) = some 2 ∧
    outShape (parametersToOutput [[]]) ≠ some 0 := by
  refine ⟨?_, by decide, by decide⟩
  intro c hcmem
  simp [columnsOf, firstKeys] at hcmem

/-- Witness for `parameters_report_shapes`: two parameter sets whose single
parameter `a` differs — the report is the single combined (varied) table. -/
theorem parameters_report_shapes_witness :
    outShape (parametersToOutput [[("a", PVal.int 1)], [("a", PVal.int 2)]]) = some 1 := by
  have h := parameters_report_shapes [[("a", PVal.int 1)], [("a", PVal.int 2)]]
    (by decide) (by decide)
  apply h.2.1
  intro c hcmem hId
  have hcols : columnsOf [[("a", PVal.int 1)], [("a", PVal.int 2)]] = ["a"] := by
    decide
  rw [hcols] at hcmem
  have hceq : c = "a" := by simpa using hcmem
  subst hceq
  have h1 : (some (PVal.int 1) : Option PVal) ∈
      colValues [[("a", PVal.int 1)], [("a", PVal.int 2)]] "a" := by decide
  have h2 : (some (PVal.int 2) : Option PVal) ∈
      colValues [[("a", PVal.int 1)], [("a", PVal.int 2)]] "a" := by decide
  have := hId _ h1 _ h2
  simp at this

/-- Appending a DataFrame under key `k` extends exactly that key's list. -/
theorem getAssoc_appendAssoc (k' k : String) (df : Df) :
    ∀ a : List (String × List Df),
      getAssoc k' (appendAssoc k df a)
        = if k' = k then getAssoc k' a ++ [df] else getAssoc k' a := by
  intro a
  induction a with
  | nil =>
      by_cases h : k = k'
      · simp [appendAssoc, getAssoc, h]
      · simp [appendAssoc, getAssoc, h, Ne.symm h]
  | cons p rest ih =>
      rcases p with ⟨k0, l⟩
      by_cases hk0 : k0 = k
      · subst hk0
        by_cases h : k0 = k'
        · subst h
          simp [appendAssoc, getAssoc]
        · simp [appendAssoc, getAssoc, h, Ne.symm h]
      · by_cases h : k0 = k'
        · subst h
          simp [appendAssoc, getAssoc, hk0, Ne.symm hk0]
        · simp [appendAssoc, getAssoc, hk0, h, ih]

/-- Folding one bundle's section into the combined dict appends, per key,
exactly that section's DataFrames for the key, in order. -/
theorem getAssoc_foldl_append (k : String) (l : List (String × Df)) :
    ∀ acc : List (String × List Df),
      getAssoc k (l.foldl (fun a p => appendAssoc p.1 p.2 a) acc)
        = getAssoc k acc ++ (l.filter (fun p => p.1 == k)).map Prod.snd := by
  induction l with
  | nil => intro acc; simp
  | cons p rest ih =>
      intro acc
      rcases p with ⟨k0, df⟩
      simp only [List.foldl_cons, ih, getAssoc_appendAssoc, List.filter_cons]
      by_cases h : k = k0
      · subst h
        simp
      · simp [h, Ne.symm h]

/-- `_add_single_output_to_combined` appends, per tabular key, exactly the
bundle's DataFrames for that key. -/
theorem getAssoc_addSingle_fields (k : String) (rcd : Bool) (out : RunOutput)
    (acc : CombAcc) :
    getAssoc k (addSingleOutputToCombined rcd out acc).fieldsAcc
      = getAssoc k acc.fieldsAcc ++ fieldDfs out k := by
  rw [addSingleOutputToCombined, fieldDfs]
  rcases rcd with _ | _
  · simp [getAssoc_foldl_append]
  · rcases out.varsSec with _ | vs <;> simp [getAssoc_foldl_append]

/-- `_add_single_output_to_combined` appends, per object type, exactly the
bundle's `variables` DataFrames for that type (none when recording is off). -/
theorem getAssoc_addSingle_vars (k : String) (rcd : Bool) (out : RunOutput)
    (acc : CombAcc) :
    getAssoc k (addSingleOutputToCombined rcd out acc).varsAcc
      = getAssoc k acc.varsAcc ++ varDfs rcd out k := by
  rw [addSingleOutputToCombined, varDfs]
  rcases rcd with _ | _
  · simp
  · rcases hv : out.varsSec with _ | vs <;> simp [hv, getAssoc_foldl_append]

/-- The aggregation loop: after folding all bundles, each key holds the
concatenation of the per-bundle contributions in arrival order. -/
theorem getAssoc_foldl_outs (k : String) (rcd : Bool) (outs : List RunOutput) :
    ∀ acc : CombAcc,
      (getAssoc k (outs.foldl (fun a o => addSingleOutputToCombined rcd o a) acc).fieldsAcc
        = getAssoc k acc.fieldsAcc ++ (outs.map (fun o => fieldDfs o k)).flatten) ∧
      (getAssoc k (outs.foldl (fun a o => addSingleOutputToCombined rcd o a) acc).varsAcc
        = getAssoc k acc.varsAcc ++ (outs.map (fun o => varDfs rcd o k)).flatten) := by
  induction outs with
  | nil => intro acc; simp
  | cons o rest ih =>
      intro acc
      simp only [List.foldl_cons, List.map_cons, List.flatten_cons, ih,
        getAssoc_addSingle_fields, getAssoc_addSingle_vars, List.append_assoc]
      exact ⟨trivial, trivial⟩

/-- `_combine_dataframes` (`pd.concat` per key) turns each key's list of
DataFrames into the concatenation of their rows. -/
theorem getDf_map_flatten (k : String) :
    ∀ a : List (String × List Df),
      getDf k (a.map (fun p => (p.1, p.2.flatten))) = (getAssoc k a).flatten := by
  intro a
  induction a with
  | nil => simp [getDf, getAssoc]
  | cons p rest ih =>
      rcases p with ⟨k0, l⟩
      by_cases h : k0 = k <;> simp [getDf, getAssoc, h, ih]

/-- The combined table for key `k` is the arrival-ordered concatenation of
every bundle's rows for `k`. -/
theorem getDf_combineAll_fields (k : String) (rcd : Bool) (outs : List RunOutput) :
    getDf k (combineAll rcd outs).fields
      = ((outs.map (fun o => fieldDfs o k)).flatten).flatten := by
  rw [combineAll]
  simp only [getDf_map_flatten, (getAssoc_foldl_outs k rcd outs ⟨[], []⟩).1]
  simp [getAssoc]

/-- The combined `variables` table for object type `k` is the
arrival-ordered concatenation of every bundle's rows for that type. -/
theorem getDf_combineAll_vars (k : String) (rcd : Bool) (outs : List RunOutput) :
    getDf k (combineAll rcd outs).varsOut
      = ((outs.map (fun o => varDfs rcd o k)).flatten).flatten := by
  rw [combineAll]
  simp only [getDf_map_flatten, (getAssoc_foldl_outs k rcd outs ⟨[], []⟩).2]
  simp [getAssoc]

/-- The combined rows with run id `r` under key `k`, bundle by bundle. -/
theorem rowsForField_combineAll (rcd : Bool) (outs : List RunOutput)
    (k : String) (r : Nat) :
    rowsForField (combineAll rcd outs) k r
      = (outs.map (fun o =>
          ((fieldDfs o k).flatten).filter (fun row => row.runId == r))).flatten := by
  rw [rowsForField, getDf_combineAll_fields, List.flatten_flatten,
    List.filter_flatten, List.map_map, List.map_map]
  rfl

/-- The combined `variables` rows with run id `r` for object type `k`,
bundle by bundle. -/
theorem rowsForVar_combineAll (rcd : Bool) (outs : List RunOutput)
    (k : String) (r : Nat) :
    rowsForVar (combineAll rcd outs) k r
      = (outs.map (fun o =>
          ((varDfs rcd o k).flatten).filter (fun row => row.runId == r))).flatten := by
  rw [rowsForVar, getDf_combineAll_vars, List.flatten_flatten,
    List.filter_flatten, List.map_map, List.map_map]
  rfl

/-- A row contributed by a bundle's tabular section carries one of that
bundle's run ids. -/
theorem mem_fieldDfs_runId (out : RunOutput) (k : String) (row : Row)
    (h : row ∈ (fieldDfs out k).flatten) : row.runId ∈ bundleIds out := by
  rw [fieldDfs, List.mem_flatten] at h
  obtain ⟨d, hd, hrow⟩ := h
  rw [List.mem_map] at hd
  obtain ⟨p, hp, rfl⟩ := hd
  rw [List.mem_filter] at hp
  rw [bundleIds, List.mem_append]
  left
  rw [List.mem_flatten]
  exact ⟨p.2.map Row.runId, List.mem_map_of_mem _ hp.1,
    List.mem_map_of_mem _ hrow⟩

/-- A row contributed by a bundle's `variables` section carries one of that
bundle's run ids. -/
theorem mem_varDfs_runId (rcd : Bool) (out : RunOutput) (k : String) (row : Row)
    (h : row ∈ (varDfs rcd out k).flatten) : row.runId ∈ bundleIds out := by
  rw [varDfs] at h
  rcases rcd with _ | _
  · simp at h
  · rcases hv : out.varsSec with _ | vs
    · rw [hv] at h
      simp at h
    · rw [hv] at h
      simp only [if_true] at h
      rw [List.mem_flatten] at h
      obtain ⟨d, hd, hrow⟩ := h
      rw [List.mem_map] at hd
      obtain ⟨p, hp, rfl⟩ := hd
      rw [List.mem_filter] at hp
      rw [bundleIds, List.mem_append]
      right
      rw [hv]
      rw [List.mem_flatten]
      exact ⟨p.2.map Row.runId, List.mem_map_of_mem _ hp.1,
        List.mem_map_of_mem _ hrow⟩

/-- Concatenation is permutation-invariant when at most one of the parts is
nonempty. -/
theorem flatten_perm_of_subsingleton :
    ∀ {l1 l2 : List (List Row)}, l1.Perm l2 →
      l1.Pairwise (fun a b => a = [] ∨ b = []) → l1.flatten = l2.flatten := by
  intro l1 l2 hp
  induction hp with
  | nil => intro _; rfl
  | cons x hrest ih =>
      intro hpw
      rw [List.pairwise_cons] at hpw
      simp [List.flatten_cons, ih hpw.2]
  | swap x y t =>
      intro hpw
      rw [List.pairwise_cons] at hpw
      have hxy := hpw.1 x (List.mem_cons_self x t)
      simp only [List.flatten_cons]
      rcases hxy with h | h <;> simp [h]
  | trans h1 h2 ih1 ih2 =>
      intro hpw
      have hpw2 := (h1.pairwise_iff (fun hab => hab.symm)).mp hpw
      rw [ih1 hpw, ih2 hpw2]

/-- Claim C4: for every collection of run bundles with pairwise-distinct run
ids (the spec's deterministic 1:1 run-id-to-work-item premise), aggregating
them in any permutation of submission order yields a combined output
identical, row-for-row keyed by run id, to aggregating them in submission
order — for the plain tabular sections and the per-object-type `variables`
sections alike, with or without dynamic-variable recording. -/
theorem combine_perm_invariant (rcd : Bool) (outs1 outs2 : List RunOutput)
    (hperm : outs1.Perm outs2) (hdisj : outs1.Pairwise DisjointIds) :
    ∀ (k : String) (r : Nat),
      rowsForField (combineAll rcd outs1) k r
        = rowsForField (combineAll rcd outs2) k r ∧
      rowsForVar (combineAll rcd outs1) k r
        = rowsForVar (combineAll rcd outs2) k r := by
  intro k r
  constructor
  · rw [rowsForField_combineAll, rowsForField_combineAll]
    apply flatten_perm_of_subsingleton (hperm.map _)
    rw [List.pairwise_map]
    apply List.Pairwise.imp ?_ hdisj
    intro o1 o2 hd
    by_contra hboth
    push_neg at hboth
    obtain ⟨h1, h2⟩ := hboth
    obtain ⟨row1, hrow1⟩ := List.exists_mem_of_ne_nil _ h1
    obtain ⟨row2, hrow2⟩ := List.exists_mem_of_ne_nil _ h2
    rw [List.mem_filter] at hrow1 hrow2
    have hr1 : row1.runId = r := by simpa using hrow1.2
    have hr2 : row2.runId = r := by simpa using hrow2.2
    have hin1 := mem_fieldDfs_runId o1 k row1 hrow1.1
    have hin2 := mem_fieldDfs_runId o2 k row2 hrow2.1
    rw [hr1] at hin1
    rw [hr2] at hin2
    exact hd r hin1 hin2
  · rw [rowsForVar_combineAll, rowsForVar_combineAll]
    apply flatten_perm_of_subsingleton (hperm.map _)
    rw [List.pairwise_map]
    apply List.Pairwise.imp ?_ hdisj
    intro o1 o2 hd
    by_contra hboth
    push_neg at hboth
    obtain ⟨h1, h2⟩ := hboth
    obtain ⟨row1, hrow1⟩ := List.exists_mem_of_ne_nil _ h1
    obtain ⟨row2, hrow2⟩ := List.exists_mem_of_ne_nil _ h2
    rw [List.mem_filter] at hrow1 hrow2
    have hr1 : row1.runId = r := by simpa using hrow1.2
    have hr2 : row2.runId = r := by simpa using hrow2.2
    have hin1 := mem_varDfs_runId rcd o1 k row1 hrow1.1
    have hin2 := mem_varDfs_runId rcd o2 k row2 hrow2.1
    rw [hr1] at hin1
    rw [hr2] at hin2
    exact hd r hin1 hin2

/-- Witness for `combine_perm_invariant`: the two bundles `bundleA`,
`bundleB` (run ids 0 and 1) aggregated in both orders. -/
theorem combine_perm_invariant_witness :
    rowsForField (combineAll true [bundleA, bundleB]) "measures" 0
      = rowsForField (combineAll true [bundleB, bundleA]) "measures" 0 ∧
    rowsForVar (combineAll true [bundleA, bundleB]) "agents" 1
      = rowsForVar (combineAll true [bundleB, bundleA]) "agents" 1 := by
  have hperm : List.Perm [bundleA, bundleB] [bundleB, bundleA] :=
    List.Perm.swap bundleB bundleA []
  have hdisj : List.Pairwise DisjointIds [bundleA, bundleB] := by
    refine List.pairwise_cons.mpr ⟨?_, List.pairwise_singleton _ _⟩
    intro o ho
    rw [List.mem_singleton] at ho
    subst ho
    show ∀ r, r ∈ bundleIds bundleA → r ∉ bundleIds bundleB
    decide
  have h := combine_perm_invariant true [bundleA, bundleB] [bundleB, bundleA]
    hperm hdisj
  exact ⟨(h "measures" 0).1, (h "agents" 1).2⟩

end Agentpy
